import Mathlib

/-!
Verification of the response-aggregation and caching layer of a Slack MCP
server (source: `slack_mcp_server.py`).

The Python source is shallowly embedded: dictionaries become association
lists, remote HTTP calls become explicit collaborator functions
(`Option`-valued: `none` models a transport failure / no response), and the
two pagination loops become fuel-indexed recursive functions (the Python
`while` loops can in principle run unboundedly many iterations, so the fuel
makes the embedding total without changing any finite-trace behaviour).
The Python regular expressions `<@([A-Z0-9]+)>`, `^\d+(\.\d+)?$` and
`^\d{4}-\d{2}-\d{2}$` are embedded as character-list scanners (the digit
class is modelled as ASCII digits).
-/

/-- A Python `dict[str, str]` as an insertion-ordered association list.
Keys are unique by construction of `cacheInsert`. -/
abbrev Cache := List (String × String)

/-- Python dict assignment `d[k] = v`: overwrite in place if the key is
present (keeping its position), otherwise append at the end. -/
def cacheInsert (c : Cache) (k v : String) : Cache :=
  match c with
  | [] => [(k, v)]
  | (k', v') :: rest =>
    if k' = k then (k, v) :: rest else (k', v') :: cacheInsert rest k v

/-- Fields of the `users.info` response consumed by `get_user_handle`
(lines 169-178).  Absent fields are modelled as `""` (falsy in Python). -/
structure UserData where
  ok : Bool
  display_name : String
  real_name : String
  name : String
deriving DecidableEq, Repr

/-- The handle priority chain of lines 173-178:
`display_name or real_name or name or user_id` (Python `or` takes the first
non-empty string). -/
def chooseHandle (u : UserData) (user_id : String) : String :=
  if u.display_name ≠ "" then u.display_name
  else if u.real_name ≠ "" then u.real_name
  else if u.name ≠ "" then u.name
  else user_id

/-- Result of one `get_user_handle` call: the returned handle, the user
cache afterwards, and whether a remote `users.info` request was issued. -/
structure GUH where
  handle : String
  cache : Cache
  fetched : Bool
deriving DecidableEq, Repr

/-- Function `get_user_handle` (lines 153-186).  The remote collaborator is the
function `fetch`; `fetch uid = none` models a transport failure or no
response, `some d` with `d.ok = false` a Slack-reported error. -/
def get_user_handle (fetch : String → Option UserData) (c : Cache)
    (user_id : String) : GUH :=
  if user_id = "" then ⟨"", c, false⟩
  else
    match List.lookup user_id c with
    | some h => ⟨h, c, false⟩
    | none =>
      match fetch user_id with
      | some d =>
        if d.ok then
          let h := chooseHandle d user_id
          ⟨h, cacheInsert c user_id h, true⟩
        else ⟨user_id, cacheInsert c user_id user_id, true⟩
      | none => ⟨user_id, cacheInsert c user_id user_id, true⟩

/-- A raw Slack message record; only the fields consumed by the projection
layer are modelled.  A missing field is `""` (Python `msg.get(k, "")`). -/
structure RawMessage where
  text : String := ""
  user : String := ""
  ts : String := ""
  thread_ts : String := ""
deriving DecidableEq, Repr

/-- The variable part of one `conversations.history` request (line 282,
287-288): the requested page size and the continuation cursor (`""` means
the cursor field is not sent).  The constant fields (`channel`, `oldest`,
`latest`) are elided. -/
structure HistRequest where
  reqLimit : Nat
  cursor : String
deriving DecidableEq, Repr

/-- The fields of a `conversations.history` response the loop consumes:
`ok`, `messages` (default `[]`) and
`response_metadata.next_cursor` (`""` models a missing or empty cursor,
both falsy at line 302). -/
structure HistData where
  ok : Bool
  messages : List RawMessage
  next_cursor : String
deriving DecidableEq, Repr

/-- The cursor-style pagination loop of `get_channel_history`
(lines 278-303).  `server n req` is the collaborator's response to the
`n`-th request (`none` = no response / transport error).  The loop returns
the accumulated messages together with the trace of issued requests, each
paired with the number of messages accumulated when it was issued.  `fuel`
bounds the number of iterations (the Python loop has no such bound; every
theorem below holds for every fuel). -/
def histLoop (server : Nat → HistRequest → Option HistData) (limit : Nat) :
    Nat → Nat → List RawMessage → String →
    List RawMessage × List (Nat × HistRequest)
  | 0, _, acc, _ => (acc, [])
  | fuel + 1, i, acc, cursor =>
    if acc.length < limit then
      let req : HistRequest := ⟨min 200 (limit - acc.length), cursor⟩
      match server i req with
      | none => (acc, [(acc.length, req)])
      | some d =>
        if d.ok then
          let acc2 := acc ++ d.messages
          if d.next_cursor = "" then (acc2, [(acc.length, req)])
          else
            let r := histLoop server limit fuel (i + 1) acc2 d.next_cursor
            (r.1, (acc.length, req) :: r.2)
        else (acc, [(acc.length, req)])
    else (acc, [])

/-- The pagination part of `get_channel_history` (lines 256-305): start
with no messages and no cursor. -/
def get_channel_history (server : Nat → HistRequest → Option HistData)
    (limit fuel : Nat) : List RawMessage × List (Nat × HistRequest) :=
  histLoop server limit fuel 0 [] ""

/-- The variable part of one `search.messages` request (lines 492-497):
requested page size (`count`) and the 1-based page number. -/
structure SearchRequest where
  count : Nat
  page : Nat
deriving DecidableEq, Repr

/-- The fields of a `search.messages` response the loop consumes: `ok`,
`messages.matches` (default `[]`) and `messages.pagination.page_count`
(default 1, line 511). -/
structure SearchData where
  ok : Bool
  matchesL : List RawMessage
  page_count : Nat
deriving DecidableEq, Repr

/-- The page-count-style pagination loop of `search_messages`
(lines 488-515), with the same conventions as `histLoop`. -/
def searchLoop (server : Nat → SearchRequest → Option SearchData)
    (limit : Nat) :
    Nat → Nat → List RawMessage → Nat →
    List RawMessage × List (Nat × SearchRequest)
  | 0, _, acc, _ => (acc, [])
  | fuel + 1, i, acc, page =>
    if acc.length < limit then
      let req : SearchRequest := ⟨min 100 (limit - acc.length), page⟩
      match server i req with
      | none => (acc, [(acc.length, req)])
      | some d =>
        if d.ok then
          let acc2 := acc ++ d.matchesL
          if d.page_count ≤ page ∨ d.matchesL.length = 0 then
            (acc2, [(acc.length, req)])
          else
            let r := searchLoop server limit fuel (i + 1) acc2 (page + 1)
            (r.1, (acc.length, req) :: r.2)
        else (acc, [(acc.length, req)])
    else (acc, [])

/-- The pagination part of `search_messages` (lines 480-517): start with
no matches at page 1. -/
def search_messages (server : Nat → SearchRequest → Option SearchData)
    (limit fuel : Nat) : List RawMessage × List (Nat × SearchRequest) :=
  searchLoop server limit fuel 0 [] 1

/-- Concatenation of the pages `pages i, pages (i+1), ..., pages (i+k-1)`:
what a pagination run accumulates from `k` successful pages starting at
call index `i`. -/
def pagesConcat (pages : Nat → List RawMessage) (i : Nat) :
    Nat → List RawMessage
  | 0 => []
  | k + 1 => pages i ++ pagesConcat pages (i + 1) k

/-- ASCII character class `[A-Z0-9]` of the mention pattern. -/
def isMentionChar (c : Char) : Bool := c.isUpper || c.isDigit

/-- Left-to-right scan for non-overlapping matches of `<@([A-Z0-9]+)>`,
collecting the captured IDs in order (Python `re.finditer` at lines
195-204, `re.findall` at 312-317 and 524-529).  The fuel is the input
length, enough for the scan to finish. -/
def scanMentionsAux : Nat → List Char → List String
  | 0, _ => []
  | _ + 1, [] => []
  | fuel + 1, c :: rest =>
    if c = '<' then
      match rest with
      | [] => scanMentionsAux fuel []
      | c2 :: r2 =>
        if c2 = '@' then
          let ident := r2.takeWhile isMentionChar
          let after := r2.drop ident.length
          if after.take 1 = ['>'] ∧ ident ≠ [] then
            ident.asString :: scanMentionsAux fuel after.tail
          else scanMentionsAux fuel rest
        else scanMentionsAux fuel rest
    else scanMentionsAux fuel rest

/-- The captured group of every match of `<@([A-Z0-9]+)>` in `s`. -/
def scanMentions (s : String) : List String :=
  scanMentionsAux s.data.length s.data

/-- Python `str.replace(pat, repl)`: replace every non-overlapping
occurrence of `pat`, scanning left to right (fuel = input length; an
empty pattern is never passed by this code base). -/
def replaceAux (pat repl : List Char) : Nat → List Char → List Char
  | 0, l => l
  | _ + 1, [] => []
  | fuel + 1, c :: rest =>
    if pat ≠ [] ∧ pat.isPrefixOf (c :: rest) then
      repl ++ replaceAux pat repl fuel ((c :: rest).drop pat.length)
    else c :: replaceAux pat repl fuel rest

/-- Python `s.replace(pat, repl)` on strings. -/
def strReplace (s pat repl : String) : String :=
  (replaceAux pat.data repl.data s.data.length s.data).asString

/-- First-occurrence de-duplication: the key order of a Python dict filled
in scan order (lines 199-204); `seen` holds the keys already emitted. -/
def dedupF (seen : List String) : List String → List String
  | [] => []
  | a :: l => if a ∈ seen then dedupF seen l else a :: dedupF (a :: seen) l

/-- One projected message: a compact line or a structured record with an
optional `thread_ts` field (present only when the raw field was). -/
inductive Projected where
  | compact (line : String)
  | structured (text user ts : String) (thread_ts : Option String)
deriving DecidableEq, Repr

/-- Whether a projected message is the structured (JSON) shape. -/
def isStructuredP : Projected → Bool
  | .structured _ _ _ _ => true
  | .compact _ => false

/-- Whether a projected message is the compact single-line shape. -/
def isCompactP : Projected → Bool
  | .compact _ => true
  | .structured _ _ _ _ => false

/-- Constant `OUTPUT_FORMAT` (line 14): the `OUTPUT_FORMAT` environment value when
set, else `"compact"`, lowercased once at process start. -/
def OUTPUT_FORMAT (env : Option String) : String :=
  (env.getD "compact").toLower

/-- The resolution loop of `replace_user_mentions` (lines 199-204):
resolve each collected ID once, returning the `(id, handle)` pairs in
order, the cache afterwards, and the IDs that caused a remote fetch. -/
def resolveIds (fetch : String → Option UserData) (c : Cache) :
    List String → List (String × String) × Cache × List String
  | [] => ([], c, [])
  | u :: rest =>
    let r := get_user_handle fetch c u
    let rec2 := resolveIds fetch r.cache rest
    ((u, r.handle) :: rec2.1, rec2.2.1,
      (if r.fetched then [u] else []) ++ rec2.2.2)

/-- Result of `replace_user_mentions`: the rewritten text, the cache
afterwards, and the IDs that caused a remote fetch. -/
structure RepR where
  text : String
  cache : Cache
  fetchedIds : List String
deriving DecidableEq, Repr

/-- Function `replace_user_mentions` (lines 189-210): collect the de-duplicated
mention IDs, resolve each once, then apply the sequential
`text.replace("<@ID>", "@handle")` loop in collection order. -/
def replace_user_mentions (fetch : String → Option UserData) (c : Cache)
    (text : String) : RepR :=
  if text = "" then ⟨text, c, []⟩
  else
    let ids := dedupF [] (scanMentions text)
    let r := resolveIds fetch c ids
    ⟨r.1.foldl (fun t p => strReplace t ("<@" ++ p.1 ++ ">") ("@" ++ p.2))
        text,
      r.2.1, r.2.2⟩

/-- The author-handle step of `filter_message_fields` (line 222):
`await get_user_handle(user_id) if user_id else ""`. -/
def authorRes (fetch : String → Option UserData) (c : Cache)
    (m : RawMessage) : GUH :=
  if m.user ≠ "" then get_user_handle fetch c m.user else ⟨"", c, false⟩

/-- Result of `filter_message_fields`: the projected message, the cache
afterwards, and the IDs that caused a remote fetch. -/
structure ProjR where
  out : Projected
  cache : Cache
  fetchedIds : List String
deriving DecidableEq, Repr

/-- Function `filter_message_fields` (lines 213-242), parameterised by the
process-wide output-format string `fmt` (already lowercased, line 14). -/
def filter_message_fields (fmt : String) (fetch : String → Option UserData)
    (c : Cache) (m : RawMessage) : ProjR :=
  let a := authorRes fetch c m
  let r := replace_user_mentions fetch a.cache m.text
  let fs := (if a.fetched then [m.user] else []) ++ r.fetchedIds
  if fmt = "json" then
    ⟨.structured r.text a.handle m.ts
        (if m.thread_ts = "" then none else some m.thread_ts),
      r.cache, fs⟩
  else
    ⟨.compact ("[" ++ m.ts ++ "] @" ++ a.handle ++ ": " ++ r.text
        ++ (if m.thread_ts ≠ "" ∧ m.thread_ts ≠ m.ts
            then " [thread:" ++ m.thread_ts ++ "]" else "")),
      r.cache, fs⟩

/-- Phase 3 of `get_channel_history` / `search_messages` (lines 324, 536):
project every message, threading the shared user cache (the `asyncio`
event loop suspends only at remote calls, and with every referenced user
cached none occurs, so sequential threading is faithful), collecting all
IDs that caused a remote fetch. -/
def projectAll (fmt : String) (fetch : String → Option UserData)
    (c : Cache) : List RawMessage → List Projected × Cache × List String
  | [] => ([], c, [])
  | m :: rest =>
    let r := filter_message_fields fmt fetch c m
    let rec2 := projectAll fmt fetch r.cache rest
    (r.out :: rec2.1, rec2.2.1, r.fetchedIds ++ rec2.2.2)

/-- The de-duplicated user IDs referenced by a batch (lines 307-317,
519-529): non-empty author IDs plus every inline-mention ID.  The Python
`set` has no specified iteration order; this list is one enumeration of
it, and the counting theorems below depend only on its elements being
unique, which `dedupF` guarantees. -/
def uniqueUsers (msgs : List RawMessage) : List String :=
  dedupF []
    ((msgs.filterMap fun m => if m.user = "" then none else some m.user)
      ++ msgs.flatMap fun m => scanMentions m.text)

/-- The pre-fetch loop (lines 320-321, 532-533): resolve every collected
ID, returning the cache afterwards and the IDs that caused a remote
fetch. -/
def prefetchUsers (fetch : String → Option UserData) (c : Cache) :
    List String → Cache × List String
  | [] => (c, [])
  | u :: rest =>
    let r := get_user_handle fetch c u
    let rec2 := prefetchUsers fetch r.cache rest
    (rec2.1, (if r.fetched then [u] else []) ++ rec2.2)

/-- The value of an ASCII digit string (most significant first). -/
def natOfDigits (cs : List Char) : Nat :=
  cs.foldl (fun n c => n * 10 + (c.toNat - 48)) 0

/-- The regex `^\\d+(\\.\\d+)?$` of line 96 (Unix-timestamp passthrough),
with the digit class modelled as ASCII digits. -/
def isUnixTs (s : String) : Bool :=
  let ds := s.data.takeWhile Char.isDigit
  let rest := s.data.drop ds.length
  !ds.isEmpty
    && (rest.isEmpty
      || (rest.take 1 == ['.'] && !(rest.drop 1).isEmpty
          && (rest.drop 1).all Char.isDigit))

/-- The regex `^\\d{4}-\\d{2}-\\d{2}$` of line 102 (date-only input). -/
def isDateOnlyStr (s : String) : Bool :=
  match s.data with
  | [y1, y2, y3, y4, h1, m1, m2, h2, d1, d2] =>
    [y1, y2, y3, y4, m1, m2, d1, d2].all Char.isDigit
      && h1 == '-' && h2 == '-'
  | _ => false

/-- Gregorian leap year (as validated by `datetime`). -/
def isLeap (y : Nat) : Bool :=
  y % 4 == 0 && (y % 100 != 0 || y % 400 == 0)

/-- Days in a month (as validated by `datetime`). -/
def daysInMonth (y m : Nat) : Nat :=
  if m = 2 then (if isLeap y then 29 else 28)
  else if m = 4 ∨ m = 6 ∨ m = 9 ∨ m = 11 then 30
  else 31

/-- Days from the Unix epoch to the civil date `y-m-d` (proleptic
Gregorian; the standard era/year-of-era computation, exact for the years
1-9999 that `datetime` admits). -/
def daysFromCivil (y m d : Nat) : Int :=
  let y2 := if m ≤ 2 then y - 1 else y
  let era := y2 / 400
  let yoe := y2 % 400
  let mp := (m + 9) % 12
  let doy := (153 * mp + 2) / 5 + d - 1
  let doe := yoe * 365 + yoe / 4 - yoe / 100 + doy
  (era * 146097 + doe : Int) - 719468

/-- Value of `dt.timestamp()` for an aware datetime, in exact integer microseconds.
The Python code goes through a float and `f"{...:.6f}"` (line 124); for the
magnitudes this tool handles the float is within rounding tolerance of the
exact value, so the formatted output coincides with the exact one. -/
def tsMicros (y m d hh mi ss usec : Nat) (offSecs : Int) : Int :=
  (daysFromCivil y m d * 86400 + (hh * 3600 + mi * 60 + ss : Nat) - offSecs)
      * 1000000
    + usec

/-- The ASCII digit character of `d % 10`. -/
def digitChar (d : Nat) : Char :=
  match d % 10 with
  | 0 => '0' | 1 => '1' | 2 => '2' | 3 => '3' | 4 => '4'
  | 5 => '5' | 6 => '6' | 7 => '7' | 8 => '8' | 9 => '9'
  | _ => '0'

/-- The six fractional digits of `f"{x:.6f}"` for `f < 1000000`. -/
def pad6 (f : Nat) : List Char :=
  [digitChar (f / 100000), digitChar (f / 10000), digitChar (f / 1000),
   digitChar (f / 100), digitChar (f / 10), digitChar f]

/-- Decimal digits of `n`, most significant first (fuel-indexed; fuel
`n + 1` always suffices, and the fuel-0 case is unreachable then). -/
def natToDigitsAux : Nat → Nat → List Char → List Char
  | 0, n, acc => digitChar n :: acc
  | fuel + 1, n, acc =>
    if n < 10 then digitChar n :: acc
    else natToDigitsAux fuel (n / 10) (digitChar n :: acc)

/-- Decimal digits of `n`, most significant first. -/
def natToDigits (n : Nat) : List Char := natToDigitsAux (n + 1) n []

/-- Python `f"{x:.6f}"` for `x` an exact multiple of one microsecond, given as
`t` microseconds. -/
def formatTs6 (t : Int) : String :=
  ((if t < 0 then ['-'] else []) ++ natToDigits (t.natAbs / 1000000)
    ++ '.' :: pad6 (t.natAbs % 1000000)).asString

/-- The fields of a parsed `datetime.fromisoformat` result consumed by
`parse_timestamp`; `tzOffsetSecs = none` is a naive datetime. -/
structure PyDateTime where
  year : Nat
  month : Nat
  day : Nat
  hour : Nat := 0
  minute : Nat := 0
  second : Nat := 0
  microsecond : Nat := 0
  tzOffsetSecs : Option Int := none
deriving DecidableEq, Repr

/-- A fractional-seconds suffix of 1-6 digits, as microseconds. -/
def parseFrac (cs : List Char) : Option Nat :=
  if (1 ≤ cs.length ∧ cs.length ≤ 6) ∧ cs.all Char.isDigit = true then
    some (natOfDigits cs * 10 ^ (6 - cs.length))
  else none

/-- The time-of-day part `HH:MM[:SS[.ffffff]]` accepted by
`datetime.fromisoformat` (the subset of its grammar this tool's inputs
use). -/
def parseTimePart (cs : List Char) : Option (Nat × Nat × Nat × Nat) :=
  match cs with
  | [h1, h2, c1, m1, m2] =>
    if [h1, h2, m1, m2].all Char.isDigit = true ∧ c1 = ':' then
      let hh := natOfDigits [h1, h2]
      let mm := natOfDigits [m1, m2]
      if hh ≤ 23 ∧ mm ≤ 59 then some (hh, mm, 0, 0) else none
    else none
  | h1 :: h2 :: c1 :: m1 :: m2 :: c2 :: s1 :: s2 :: rest =>
    if [h1, h2, m1, m2, s1, s2].all Char.isDigit = true
        ∧ c1 = ':' ∧ c2 = ':' then
      let hh := natOfDigits [h1, h2]
      let mm := natOfDigits [m1, m2]
      let ss := natOfDigits [s1, s2]
      if hh ≤ 23 ∧ mm ≤ 59 ∧ ss ≤ 59 then
        match rest with
        | [] => some (hh, mm, ss, 0)
        | cdot :: frac =>
          if cdot = '.' then
            match parseFrac frac with
            | some us => some (hh, mm, ss, us)
            | none => none
          else none
      else none
    else none
  | _ => none

/-- A UTC offset `±HH:MM`, in seconds. -/
def parseOffset (cs : List Char) : Option Int :=
  match cs with
  | [sg, h1, h2, c1, m1, m2] =>
    if (sg = '+' ∨ sg = '-') ∧ [h1, h2, m1, m2].all Char.isDigit = true
        ∧ c1 = ':' then
      let hh := natOfDigits [h1, h2]
      let mm := natOfDigits [m1, m2]
      if hh ≤ 23 ∧ mm ≤ 59 then
        let v : Int := (hh * 3600 + mm * 60 : Nat)
        some (if sg = '-' then -v else v)
      else none
    else none
  | _ => none

/-- Python `datetime.fromisoformat` on the grammar subset this tool feeds it:
`YYYY-MM-DD`, optionally followed by `T` or a space, a time of day, and a
UTC offset.  Anything else — in particular any unparseable string — is
`none` (the `ValueError` path of lines 125-127). -/
def fromisoformatSub (s : String) : Option PyDateTime :=
  match s.data with
  | y1 :: y2 :: y3 :: y4 :: ha :: m1 :: m2 :: hb :: d1 :: d2 :: rest =>
    if [y1, y2, y3, y4, m1, m2, d1, d2].all Char.isDigit = true
        ∧ ha = '-' ∧ hb = '-' then
      let y := natOfDigits [y1, y2, y3, y4]
      let mo := natOfDigits [m1, m2]
      let dy := natOfDigits [d1, d2]
      if 1 ≤ y ∧ 1 ≤ mo ∧ mo ≤ 12 ∧ 1 ≤ dy ∧ dy ≤ daysInMonth y mo then
        match rest with
        | [] => some { year := y, month := mo, day := dy }
        | sep :: rest2 =>
          if sep = 'T' ∨ sep = ' ' then
            let timeCs := rest2.takeWhile fun c => !(c == '+' || c == '-')
            let offCs := rest2.drop timeCs.length
            match parseTimePart timeCs with
            | none => none
            | some (hh, mi, ss, us) =>
              if offCs.isEmpty then
                some { year := y, month := mo, day := dy, hour := hh,
                       minute := mi, second := ss, microsecond := us }
              else
                match parseOffset offCs with
                | none => none
                | some off =>
                  some { year := y, month := mo, day := dy, hour := hh,
                         minute := mi, second := ss, microsecond := us,
                         tzOffsetSecs := some off }
          else none
      else none
    else none
  | _ => none

/-- Function `parse_timestamp` (lines 81-127): empty input passes through empty; a
bare Unix timestamp passes through unchanged; a date-only input becomes
start of day (or end of day `23:59:59.999999` when `is_end_of_range`) in
UTC; a full datetime is parsed as-is (`Z` rewritten to `+00:00`, UTC
assumed when naive); unparseable input yields `""`. -/
def parse_timestamp (date_str : String) (is_end_of_range : Bool) : String :=
  if date_str = "" then ""
  else if isUnixTs date_str then date_str
  else if isDateOnlyStr date_str then
    match fromisoformatSub date_str with
    | some dt =>
      if is_end_of_range then
        formatTs6 (tsMicros dt.year dt.month dt.day 23 59 59 999999 0)
      else
        formatTs6 (tsMicros dt.year dt.month dt.day 0 0 0 0 0)
    | none => ""
  else
    match fromisoformatSub (strReplace date_str "Z" "+00:00") with
    | some dt =>
      formatTs6 (tsMicros dt.year dt.month dt.day dt.hour dt.minute
        dt.second dt.microsecond (dt.tzOffsetSecs.getD 0))
    | none => ""

/-- Whether the first `.` of a string is followed by exactly six digits
and nothing else (so the string has exactly six fractional digits). -/
def sixFracAux : List Char → Bool
  | [] => false
  | c :: rest =>
    if c = '.' then rest.length == 6 && rest.all Char.isDigit
    else sixFracAux rest

/-- Predicate `sixFracAux` applied to a string. -/
def sixFrac (s : String) : Bool := sixFracAux s.data

/-- One entry of the `conversations.list` response (fields consumed:
`name`, `id`; a missing field is `""`). -/
structure ChannelInfo where
  name : String := ""
  id : String := ""
deriving DecidableEq, Repr

/-- The fields of a `conversations.list` response the loader consumes. -/
structure ChannelsData where
  ok : Bool
  channels : List ChannelInfo
deriving DecidableEq, Repr

/-- Function `_load_channels_to_cache` (lines 327-348): on success, clear the
cache and repopulate it from the response, skipping entries with an empty
name or ID; on failure (no response, or `ok:false`), leave the cache
untouched and return `false`. -/
def _load_channels_to_cache (resp : Option ChannelsData) (cc : Cache) :
    Bool × Cache :=
  match resp with
  | some d =>
    if d.ok then
      (true,
        d.channels.foldl
          (fun acc ch =>
            if ch.name ≠ "" ∧ ch.id ≠ "" then cacheInsert acc ch.name ch.id
            else acc)
          [])
    else (false, cc)
  | none => (false, cc)

/-- Python `channel_name.lstrip("#")` (line 355). -/
def stripHash (s : String) : String :=
  (s.data.dropWhile (fun c => c == '#')).asString

/-- Function `get_channel_id_by_name` (lines 351-371): strip `#`, try the cache,
on a miss reload the whole cache and retry once, returning `""` on a
still-miss or a failed reload.  Returns the result together with the
channel cache afterwards. -/
def get_channel_id_by_name (resp : Option ChannelsData) (cc : Cache)
    (channel_name : String) : String × Cache :=
  let clean := stripHash channel_name
  match List.lookup clean cc with
  | some cid => (cid, cc)
  | none =>
    let r := _load_channels_to_cache resp cc
    if r.1 then
      match List.lookup clean r.2 with
      | some cid => (cid, r.2)
      | none => ("", r.2)
    else ("", r.2)

/-- Function `refresh_channel_cache` (lines 374-378): an unconditional reload. -/
def refresh_channel_cache (resp : Option ChannelsData) (cc : Cache) :
    Bool × Cache :=
  _load_channels_to_cache resp cc

/-- Function `_load_user_cache` (lines 130-141): when the cache file exists and
parses, it replaces the in-memory user cache wholesale; a parse failure
resets the cache to empty; a missing file leaves it unchanged. -/
def _load_user_cache (disk : Option Cache) (parseOk : Bool) (uc : Cache) :
    Cache :=
  match disk with
  | some c => if parseOk then c else []
  | none => uc

/-- The mutable state of the process: the two in-memory caches plus the
persisted user-cache file (`none` = file absent). -/
structure SysState where
  channelCache : Cache
  userCache : Cache
  diskUserCache : Option Cache

/-- One cache-affecting operation of the server.  `saveOk` / `unlinkOk` /
`parseOk` model whether the corresponding file operation succeeds (all
file failures are non-fatal in the source). -/
inductive Op where
  | loadChannels (resp : Option ChannelsData)
  | resolveChannel (resp : Option ChannelsData) (name : String)
  | refreshChannels (resp : Option ChannelsData)
  | lookupUser (fetch : String → Option UserData) (uid : String)
      (saveOk : Bool)
  | clearUserCache (unlinkOk : Bool)
  | loadUserCacheStartup (parseOk : Bool)

/-- The state transition of each operation: channel reloads via
`_load_channels_to_cache`, user lookups via `get_user_handle` with
`_save_user_cache` after every insertion (lines 180, 185),
`refresh_user_cache` (lines 381-397) clearing memory and deleting the
file, and the startup `_load_user_cache`. -/
def step (s : SysState) : Op → SysState
  | .loadChannels resp =>
    { s with channelCache := (_load_channels_to_cache resp s.channelCache).2 }
  | .resolveChannel resp name =>
    { s with
        channelCache := (get_channel_id_by_name resp s.channelCache name).2 }
  | .refreshChannels resp =>
    { s with channelCache := (refresh_channel_cache resp s.channelCache).2 }
  | .lookupUser fetch uid saveOk =>
    let r := get_user_handle fetch s.userCache uid
    { s with
        userCache := r.cache,
        diskUserCache :=
          if r.fetched ∧ saveOk then some r.cache else s.diskUserCache }
  | .clearUserCache unlinkOk =>
    { s with
        userCache := [],
        diskUserCache := if unlinkOk then none else s.diskUserCache }
  | .loadUserCacheStartup parseOk =>
    { s with
        userCache := _load_user_cache s.diskUserCache parseOk s.userCache }

/-- The process starts with empty caches and no cache file. -/
def initState : SysState := ⟨[], [], none⟩

/-- Run a sequence of operations from the initial state. -/
def runOps (ops : List Op) : SysState := ops.foldl step initState

/-- Every channel-cache entry has a non-empty name and ID. -/
def goodChannelCache (c : Cache) : Prop := ∀ p ∈ c, p.1 ≠ "" ∧ p.2 ≠ ""

/-- Every user-cache entry has a non-empty key. -/
def goodUserCache (c : Cache) : Prop := ∀ p ∈ c, p.1 ≠ ""

/-- The caches and the persisted file all satisfy the key invariants. -/
def goodState (s : SysState) : Prop :=
  goodChannelCache s.channelCache ∧ goodUserCache s.userCache
    ∧ ∀ dc, s.diskUserCache = some dc → goodUserCache dc

-- Association-list lemmas for `cacheInsert`.

theorem cacheInsert_lookup_self (c : Cache) (k v : String) :
    List.lookup k (cacheInsert c k v) = some v := by
  induction c with
  | nil => simp [cacheInsert, List.lookup]
  | cons p rest ih =>
    obtain ⟨k', v'⟩ := p
    by_cases h : k' = k
    · simp [cacheInsert, h, List.lookup]
    · have hb : (k == k') = false := beq_eq_false_iff_ne.mpr fun hh => h hh.symm
      simp [cacheInsert, h, List.lookup, hb, ih]

theorem cacheInsert_lookup_other (c : Cache) (k v x : String) (hx : x ≠ k) :
    List.lookup x (cacheInsert c k v) = List.lookup x c := by
  have hbx : (x == k) = false := beq_eq_false_iff_ne.mpr hx
  induction c with
  | nil => simp [cacheInsert, List.lookup, hbx]
  | cons p rest ih =>
    obtain ⟨k', v'⟩ := p
    by_cases h : k' = k
    · subst h
      simp [cacheInsert, List.lookup, hbx]
    · by_cases hxp : x = k'
      · simp [cacheInsert, h, List.lookup, hxp]
      · have hb : (x == k') = false := beq_eq_false_iff_ne.mpr hxp
        simp [cacheInsert, h, List.lookup, hb, ih]

theorem cacheInsert_mem (c : Cache) (k v : String) (p : String × String)
    (hp : p ∈ cacheInsert c k v) : p = (k, v) ∨ p ∈ c := by
  induction c with
  | nil => simpa [cacheInsert] using hp
  | cons q rest ih =>
    by_cases h : q.1 = k
    · simp [cacheInsert, h] at hp
      rcases hp with hp | hp
      · exact Or.inl hp
      · exact Or.inr (List.mem_cons_of_mem _ hp)
    · simp [cacheInsert, h] at hp
      rcases hp with hp | hp
      · exact Or.inr (by simp [hp])
      · rcases ih hp with h1 | h1
        · exact Or.inl h1
        · exact Or.inr (List.mem_cons_of_mem _ h1)

-- Behavioural lemmas for `get_user_handle`.

theorem guh_hit (fetch : String → Option UserData) (c : Cache) (u v : String)
    (hu : u ≠ "") (hv : List.lookup u c = some v) :
    get_user_handle fetch c u = ⟨v, c, false⟩ := by
  simp [get_user_handle, hu, hv]

theorem guh_self_cached (fetch : String → Option UserData) (c : Cache)
    (u : String) (hu : u ≠ "") :
    List.lookup u (get_user_handle fetch c u).cache
      = some (get_user_handle fetch c u).handle := by
  unfold get_user_handle
  simp only [hu, if_false, ite_false]
  cases hl : List.lookup u c with
  | some h => simp [hl]
  | none =>
    cases hf : fetch u with
    | none => simp [hf, cacheInsert_lookup_self]
    | some d =>
      by_cases hok : d.ok
      · simp [hf, hok, cacheInsert_lookup_self]
      · simp [hf, hok, cacheInsert_lookup_self]

theorem guh_cache_mono (fetch : String → Option UserData) (c : Cache)
    (u x v : String) (hv : List.lookup x c = some v) :
    List.lookup x (get_user_handle fetch c u).cache = some v := by
  unfold get_user_handle
  by_cases hu : u = ""
  · simp [hu, hv]
  · simp only [hu, ite_false, if_false]
    cases hl : List.lookup u c with
    | some h => simp [hl, hv]
    | none =>
      have hxu : x ≠ u := by
        intro h
        rw [h, hl] at hv
        cases hv
      cases hf : fetch u with
      | none => simp [hf, cacheInsert_lookup_other _ _ _ _ hxu, hv]
      | some d =>
        by_cases hok : d.ok
        · simp [hf, hok, cacheInsert_lookup_other _ _ _ _ hxu, hv]
        · simp [hf, hok, cacheInsert_lookup_other _ _ _ _ hxu, hv]

theorem guh_fetched_iff (fetch : String → Option UserData) (c : Cache)
    (u : String) :
    (get_user_handle fetch c u).fetched = true
      ↔ (u ≠ "" ∧ List.lookup u c = none) := by
  unfold get_user_handle
  by_cases hu : u = ""
  · simp [hu]
  · simp only [hu, ite_false, if_false]
    cases hl : List.lookup u c with
    | some h => simp [hl]
    | none =>
      cases hf : fetch u with
      | none => simp [hf, hu]
      | some d =>
        by_cases hok : d.ok
        · simp [hf, hok, hu]
        · simp [hf, hok, hu]

theorem guh_cache_of_not_fetched (fetch : String → Option UserData)
    (c : Cache) (u : String)
    (h : (get_user_handle fetch c u).fetched = false) :
    (get_user_handle fetch c u).cache = c := by
  unfold get_user_handle at *
  by_cases hu : u = ""
  · simp [hu]
  · simp only [hu, ite_false, if_false] at *
    cases hl : List.lookup u c with
    | some hv => simp [hl]
    | none =>
      exfalso
      cases hf : fetch u with
      | none => simp [hl, hf] at h
      | some d =>
        by_cases hok : d.ok
        · simp [hl, hf, hok] at h
        · simp [hl, hf, hok] at h

/-- C3: once a resolution of a (non-empty) user ID `u` has completed —
remote lookup succeeded or failed — the resolved value is in the cache,
every subsequent resolution returns that cached value with no further
remote fetch (for any behaviour `fetch'` of the collaborator, which is
not consulted), and an ID whose remote lookup fails resolves to the ID
string itself on the first call and on every call after it. -/
theorem spec_C3 (fetch fetch' : String → Option UserData) (c : Cache)
    (u : String) (hu : u ≠ "") :
    (List.lookup u (get_user_handle fetch c u).cache
       = some (get_user_handle fetch c u).handle)
    ∧ (get_user_handle fetch' (get_user_handle fetch c u).cache u
       = ⟨(get_user_handle fetch c u).handle,
          (get_user_handle fetch c u).cache, false⟩)
    ∧ (List.lookup u c = none →
        (fetch u = none ∨ ∃ d, fetch u = some d ∧ d.ok = false) →
        (get_user_handle fetch c u).handle = u
        ∧ get_user_handle fetch' (get_user_handle fetch c u).cache u
            = ⟨u, (get_user_handle fetch c u).cache, false⟩) := by
  refine ⟨guh_self_cached fetch c u hu,
    guh_hit fetch' _ u _ hu (guh_self_cached fetch c u hu), ?_⟩
  intro hnone hfail
  have hh : (get_user_handle fetch c u).handle = u := by
    unfold get_user_handle
    rcases hfail with h | ⟨d, hd, hok⟩
    · simp [hu, hnone, h]
    · simp [hu, hnone, hd, hok]
  have h2 := guh_hit fetch' _ u _ hu (guh_self_cached fetch c u hu)
  rw [hh] at h2
  exact ⟨hh, h2⟩

/-- Witness for C3 at a concrete input: user `"U1"`, empty cache, a
collaborator whose lookups always fail. -/
theorem spec_C3_witness :
    (List.lookup "U1" (get_user_handle (fun _ => none) [] "U1").cache
       = some (get_user_handle (fun _ => none) [] "U1").handle)
    ∧ (get_user_handle (fun _ => some ⟨true, "alice", "", ""⟩)
         (get_user_handle (fun _ => none) [] "U1").cache "U1"
       = ⟨(get_user_handle (fun _ => none) [] "U1").handle,
          (get_user_handle (fun _ => none) [] "U1").cache, false⟩)
    ∧ (List.lookup "U1" ([] : Cache) = none →
        ((fun _ => none : String → Option UserData) "U1" = none
          ∨ ∃ d, (fun _ => none : String → Option UserData) "U1" = some d
              ∧ d.ok = false) →
        (get_user_handle (fun _ => none) [] "U1").handle = "U1"
        ∧ get_user_handle (fun _ => some ⟨true, "alice", "", ""⟩)
            (get_user_handle (fun _ => none) [] "U1").cache "U1"
            = ⟨"U1", (get_user_handle (fun _ => none) [] "U1").cache, false⟩) :=
  spec_C3 (fun _ => none) (fun _ => some ⟨true, "alice", "", ""⟩) [] "U1"
    (by decide)

-- Pagination invariants (claims C1 and C2).

theorem histLoop_length_le (server : Nat → HistRequest → Option HistData)
    (limit : Nat)
    (hpage : ∀ i req d, server i req = some d →
      d.messages.length ≤ req.reqLimit) :
    ∀ fuel i acc cursor, acc.length ≤ limit →
      (histLoop server limit fuel i acc cursor).1.length ≤ limit := by
  intro fuel
  induction fuel with
  | zero => intro i acc cursor h; simpa [histLoop] using h
  | succ fuel ih =>
    intro i acc cursor h
    by_cases hlt : acc.length < limit
    · simp only [histLoop, if_pos hlt]
      cases hs : server i ⟨min 200 (limit - acc.length), cursor⟩ with
      | none => simpa using h
      | some d =>
        by_cases hok : d.ok
        · have hlen : d.messages.length ≤ min 200 (limit - acc.length) :=
            hpage _ _ _ hs
          have hacc2 : (acc ++ d.messages).length ≤ limit := by
            simp only [List.length_append]
            omega
          by_cases hc : d.next_cursor = ""
          · simpa [hok, hc] using hacc2
          · simpa [hok, hc] using
              ih (i + 1) (acc ++ d.messages) d.next_cursor hacc2
        · simpa [hok] using h
    · simpa [histLoop, if_neg hlt] using h

theorem histLoop_trace (server : Nat → HistRequest → Option HistData)
    (limit : Nat) :
    ∀ fuel i acc cursor q,
      q ∈ (histLoop server limit fuel i acc cursor).2 →
      q.1 < limit ∧ q.2.reqLimit = min 200 (limit - q.1) := by
  intro fuel
  induction fuel with
  | zero => intro i acc cursor q hq; simp [histLoop] at hq
  | succ fuel ih =>
    intro i acc cursor q hq
    by_cases hlt : acc.length < limit
    · simp only [histLoop, if_pos hlt] at hq
      cases hs : server i ⟨min 200 (limit - acc.length), cursor⟩ with
      | none =>
        simp [hs] at hq
        simp [hq, hlt]
      | some d =>
        by_cases hok : d.ok
        · by_cases hc : d.next_cursor = ""
          · simp [hs, hok, hc] at hq
            simp [hq, hlt]
          · simp [hs, hok, hc] at hq
            rcases hq with hq | hq
            · simp [hq, hlt]
            · exact ih _ _ _ _ hq
        · simp [hs, hok] at hq
          simp [hq, hlt]
    · simp [histLoop, if_neg hlt] at hq

theorem searchLoop_length_le (server : Nat → SearchRequest → Option SearchData)
    (limit : Nat)
    (hpage : ∀ i req d, server i req = some d →
      d.matchesL.length ≤ req.count) :
    ∀ fuel i acc page, acc.length ≤ limit →
      (searchLoop server limit fuel i acc page).1.length ≤ limit := by
  intro fuel
  induction fuel with
  | zero => intro i acc page h; simpa [searchLoop] using h
  | succ fuel ih =>
    intro i acc page h
    by_cases hlt : acc.length < limit
    · simp only [searchLoop, if_pos hlt]
      cases hs : server i ⟨min 100 (limit - acc.length), page⟩ with
      | none => simpa using h
      | some d =>
        by_cases hok : d.ok
        · have hlen : d.matchesL.length ≤ min 100 (limit - acc.length) :=
            hpage _ _ _ hs
          have hacc2 : (acc ++ d.matchesL).length ≤ limit := by
            simp only [List.length_append]
            omega
          by_cases hc : d.page_count ≤ page ∨ d.matchesL = []
          · simpa [hok, hc] using hacc2
          · simpa [hok, hc] using
              ih (i + 1) (acc ++ d.matchesL) (page + 1) hacc2
        · simpa [hok] using h
    · simpa [searchLoop, if_neg hlt] using h

theorem searchLoop_trace (server : Nat → SearchRequest → Option SearchData)
    (limit : Nat) :
    ∀ fuel i acc page q,
      q ∈ (searchLoop server limit fuel i acc page).2 →
      q.1 < limit ∧ q.2.count = min 100 (limit - q.1) := by
  intro fuel
  induction fuel with
  | zero => intro i acc page q hq; simp [searchLoop] at hq
  | succ fuel ih =>
    intro i acc page q hq
    by_cases hlt : acc.length < limit
    · simp only [searchLoop, if_pos hlt] at hq
      cases hs : server i ⟨min 100 (limit - acc.length), page⟩ with
      | none =>
        simp [hs] at hq
        simp [hq, hlt]
      | some d =>
        by_cases hok : d.ok
        · by_cases hc : d.page_count ≤ page ∨ d.matchesL = []
          · simp [hs, hok, hc] at hq
            simp [hq, hlt]
          · simp [hs, hok, hc] at hq
            rcases hq with hq | hq
            · simp [hq, hlt]
            · exact ih _ _ _ _ hq
        · simp [hs, hok] at hq
          simp [hq, hlt]
    · simp [searchLoop, if_neg hlt] at hq

/-- C1: for a strictly positive limit `L`, when every collaborator page
holds at most the requested number of items, both pagination loops return
at most `L` items; and unconditionally, every request either loop issues
is issued while the accumulated count is still below `L` and asks for
exactly `min(pageCap, L - accumulated)` items (page cap 200 for channel
history, 100 for search). -/
theorem spec_C1 (hserver : Nat → HistRequest → Option HistData)
    (sserver : Nat → SearchRequest → Option SearchData)
    (limit fuel : Nat) (hpos : 0 < limit)
    (hH : ∀ i req d, hserver i req = some d →
      d.messages.length ≤ req.reqLimit)
    (hS : ∀ i req d, sserver i req = some d →
      d.matchesL.length ≤ req.count) :
    ((get_channel_history hserver limit fuel).1.length ≤ limit
      ∧ ∀ q ∈ (get_channel_history hserver limit fuel).2,
          q.1 < limit ∧ q.2.reqLimit = min 200 (limit - q.1))
    ∧ ((search_messages sserver limit fuel).1.length ≤ limit
      ∧ ∀ q ∈ (search_messages sserver limit fuel).2,
          q.1 < limit ∧ q.2.count = min 100 (limit - q.1)) := by
  refine ⟨⟨?_, ?_⟩, ?_, ?_⟩
  · exact histLoop_length_le hserver limit hH fuel 0 [] "" (by simp)
  · intro q hq
    exact histLoop_trace hserver limit fuel 0 [] "" q hq
  · exact searchLoop_length_le sserver limit hS fuel 0 [] 1 (by simp)
  · intro q hq
    exact searchLoop_trace sserver limit fuel 0 [] 1 q hq

/-- Witness for C1 at a concrete input: limit 5, fuel 3, collaborators
that never respond (so the page-size hypotheses hold vacuously). -/
theorem spec_C1_witness :
    ((get_channel_history (fun _ _ => none) 5 3).1.length ≤ 5
      ∧ ∀ q ∈ (get_channel_history (fun _ _ => none) 5 3).2,
          q.1 < 5 ∧ q.2.reqLimit = min 200 (5 - q.1))
    ∧ ((search_messages (fun _ _ => none) 5 3).1.length ≤ 5
      ∧ ∀ q ∈ (search_messages (fun _ _ => none) 5 3).2,
          q.1 < 5 ∧ q.2.count = min 100 (5 - q.1)) :=
  spec_C1 (fun _ _ => none) (fun _ _ => none) 5 3 (by decide)
    (fun _ _ _ h => nomatch h) (fun _ _ _ h => nomatch h)

theorem histLoop_partial (g : Nat → Option HistData) (d : Nat → HistData)
    (limit : Nat) :
    ∀ k i acc cursor fuel, k < fuel →
      (∀ j, j < k → g (i + j) = some (d (i + j))
        ∧ (d (i + j)).ok = true ∧ (d (i + j)).next_cursor ≠ "") →
      (g (i + k) = none ∨ ∃ dd, g (i + k) = some dd ∧ dd.ok = false) →
      (∀ j, j ≤ k →
        acc.length
          + (pagesConcat (fun n => (d n).messages) i j).length < limit) →
      (histLoop (fun n _ => g n) limit fuel i acc cursor).1
        = acc ++ pagesConcat (fun n => (d n).messages) i k := by
  intro k
  induction k with
  | zero =>
    intro i acc cursor fuel hfuel hok hfail hlt
    have hacc : acc.length < limit := by
      simpa [pagesConcat] using hlt 0 (Nat.le_refl 0)
    obtain ⟨fuel', rfl⟩ : ∃ fuel', fuel = fuel' + 1 := ⟨fuel - 1, by omega⟩
    rw [Nat.add_zero] at hfail
    simp only [histLoop, if_pos hacc, pagesConcat, List.append_nil]
    rcases hfail with h | ⟨dd, hdd, hddok⟩
    · simp [h]
    · simp [hdd, hddok]
  | succ k ih =>
    intro i acc cursor fuel hfuel hok hfail hlt
    have hacc : acc.length < limit := by
      simpa [pagesConcat] using hlt 0 (Nat.zero_le _)
    obtain ⟨fuel', rfl⟩ : ∃ fuel', fuel = fuel' + 1 := ⟨fuel - 1, by omega⟩
    obtain ⟨hg0, hok0, hc0⟩ := hok 0 (Nat.succ_pos k)
    rw [Nat.add_zero] at hg0 hok0 hc0
    have hok' : ∀ j, j < k →
        g (i + 1 + j) = some (d (i + 1 + j))
          ∧ (d (i + 1 + j)).ok = true
          ∧ (d (i + 1 + j)).next_cursor ≠ "" := by
      intro j hj
      have e : i + (j + 1) = i + 1 + j := by omega
      have h1 := hok (j + 1) (by omega)
      rwa [e] at h1
    have hfail' : g (i + 1 + k) = none
        ∨ ∃ dd, g (i + 1 + k) = some dd ∧ dd.ok = false := by
      have e : i + (k + 1) = i + 1 + k := by omega
      rwa [e] at hfail
    have hlt' : ∀ j, j ≤ k →
        (acc ++ (d i).messages).length
          + (pagesConcat (fun n => (d n).messages) (i + 1) j).length
            < limit := by
      intro j hj
      have h1 := hlt (j + 1) (by omega)
      simp only [pagesConcat, List.length_append] at h1 ⊢
      omega
    have hrec := ih (i + 1) (acc ++ (d i).messages) (d i).next_cursor fuel'
      (by omega) hok' hfail' hlt'
    simp only [histLoop, if_pos hacc]
    simp [hg0, hok0, hc0, pagesConcat, hrec, List.append_assoc]

theorem searchLoop_partial (g : Nat → Option SearchData) (d : Nat → SearchData)
    (limit : Nat) :
    ∀ k i acc page fuel, k < fuel →
      (∀ j, j < k → g (i + j) = some (d (i + j))
        ∧ (d (i + j)).ok = true
        ∧ page + j < (d (i + j)).page_count
        ∧ (d (i + j)).matchesL ≠ []) →
      (g (i + k) = none ∨ ∃ dd, g (i + k) = some dd ∧ dd.ok = false) →
      (∀ j, j ≤ k →
        acc.length
          + (pagesConcat (fun n => (d n).matchesL) i j).length < limit) →
      (searchLoop (fun n _ => g n) limit fuel i acc page).1
        = acc ++ pagesConcat (fun n => (d n).matchesL) i k := by
  intro k
  induction k with
  | zero =>
    intro i acc page fuel hfuel hok hfail hlt
    have hacc : acc.length < limit := by
      simpa [pagesConcat] using hlt 0 (Nat.le_refl 0)
    obtain ⟨fuel', rfl⟩ : ∃ fuel', fuel = fuel' + 1 := ⟨fuel - 1, by omega⟩
    rw [Nat.add_zero] at hfail
    simp only [searchLoop, if_pos hacc, pagesConcat, List.append_nil]
    rcases hfail with h | ⟨dd, hdd, hddok⟩
    · simp [h]
    · simp [hdd, hddok]
  | succ k ih =>
    intro i acc page fuel hfuel hok hfail hlt
    have hacc : acc.length < limit := by
      simpa [pagesConcat] using hlt 0 (Nat.zero_le _)
    obtain ⟨fuel', rfl⟩ : ∃ fuel', fuel = fuel' + 1 := ⟨fuel - 1, by omega⟩
    obtain ⟨hg0, hok0, hpc0, hm0⟩ := hok 0 (Nat.succ_pos k)
    simp only [Nat.add_zero] at hg0 hok0 hpc0 hm0
    have hcont : ¬((d i).page_count ≤ page ∨ (d i).matchesL = []) := by
      push_neg
      exact ⟨by omega, hm0⟩
    have hok' : ∀ j, j < k →
        g (i + 1 + j) = some (d (i + 1 + j))
          ∧ (d (i + 1 + j)).ok = true
          ∧ (page + 1) + j < (d (i + 1 + j)).page_count
          ∧ (d (i + 1 + j)).matchesL ≠ [] := by
      intro j hj
      have e : i + (j + 1) = i + 1 + j := by omega
      have e2 : page + (j + 1) = (page + 1) + j := by omega
      have h1 := hok (j + 1) (by omega)
      rw [e, e2] at h1
      exact h1
    have hfail' : g (i + 1 + k) = none
        ∨ ∃ dd, g (i + 1 + k) = some dd ∧ dd.ok = false := by
      have e : i + (k + 1) = i + 1 + k := by omega
      rwa [e] at hfail
    have hlt' : ∀ j, j ≤ k →
        (acc ++ (d i).matchesL).length
          + (pagesConcat (fun n => (d n).matchesL) (i + 1) j).length
            < limit := by
      intro j hj
      have h1 := hlt (j + 1) (by omega)
      simp only [pagesConcat, List.length_append] at h1 ⊢
      omega
    have hrec := ih (i + 1) (acc ++ (d i).matchesL) (page + 1) fuel'
      (by omega) hok' hfail' hlt'
    simp only [searchLoop, if_pos hacc]
    simp [hg0, hok0, hcont, pagesConcat, hrec, List.append_assoc]

/-- C2: if the first `k` pages succeed (with a continuation cursor for the
history loop; with a later page available and a non-empty page for the
search loop), the accumulated count stays below the limit, and the
`(k+1)`-th request fails (no response or `ok:false`), then each loop
returns (without raising — the return type carries no error) exactly the
concatenation of the first `k` pages. -/
theorem spec_C2
    (g : Nat → Option HistData) (d : Nat → HistData)
    (gs : Nat → Option SearchData) (ds : Nat → SearchData)
    (limit fuel k ks : Nat)
    (hkf : k < fuel) (hksf : ks < fuel)
    (hok : ∀ j, j < k → g j = some (d j)
      ∧ (d j).ok = true ∧ (d j).next_cursor ≠ "")
    (hfail : g k = none ∨ ∃ dd, g k = some dd ∧ dd.ok = false)
    (hlt : ∀ j, j ≤ k →
      (pagesConcat (fun n => (d n).messages) 0 j).length < limit)
    (hoks : ∀ j, j < ks → gs j = some (ds j)
      ∧ (ds j).ok = true ∧ 1 + j < (ds j).page_count ∧ (ds j).matchesL ≠ [])
    (hfails : gs ks = none ∨ ∃ dd, gs ks = some dd ∧ dd.ok = false)
    (hlts : ∀ j, j ≤ ks →
      (pagesConcat (fun n => (ds n).matchesL) 0 j).length < limit) :
    (get_channel_history (fun n _ => g n) limit fuel).1
      = pagesConcat (fun n => (d n).messages) 0 k
    ∧ (search_messages (fun n _ => gs n) limit fuel).1
      = pagesConcat (fun n => (ds n).matchesL) 0 ks := by
  constructor
  · have hok0 : ∀ j, j < k → g (0 + j) = some (d (0 + j))
        ∧ (d (0 + j)).ok = true ∧ (d (0 + j)).next_cursor ≠ "" := by
      intro j hj
      simpa [Nat.zero_add] using hok j hj
    have hfail0 : g (0 + k) = none
        ∨ ∃ dd, g (0 + k) = some dd ∧ dd.ok = false := by
      simpa [Nat.zero_add] using hfail
    have hlt0 : ∀ j, j ≤ k →
        ([] : List RawMessage).length
          + (pagesConcat (fun n => (d n).messages) 0 j).length < limit := by
      intro j hj
      simpa using hlt j hj
    have h := histLoop_partial g d limit k 0 [] "" fuel hkf hok0 hfail0 hlt0
    simpa [get_channel_history] using h
  · have hok0 : ∀ j, j < ks → gs (0 + j) = some (ds (0 + j))
        ∧ (ds (0 + j)).ok = true ∧ 1 + j < (ds (0 + j)).page_count
        ∧ (ds (0 + j)).matchesL ≠ [] := by
      intro j hj
      simpa [Nat.zero_add] using hoks j hj
    have hfail0 : gs (0 + ks) = none
        ∨ ∃ dd, gs (0 + ks) = some dd ∧ dd.ok = false := by
      simpa [Nat.zero_add] using hfails
    have hlt0 : ∀ j, j ≤ ks →
        ([] : List RawMessage).length
          + (pagesConcat (fun n => (ds n).matchesL) 0 j).length < limit := by
      intro j hj
      simpa using hlts j hj
    have h := searchLoop_partial gs ds limit ks 0 [] 1 fuel hksf hok0 hfail0
      hlt0
    simpa [search_messages] using h

/-- Witness for C2 at a concrete input: one successful page of one message,
then a failing second request; limit 10, fuel 3. -/
theorem spec_C2_witness :
    (get_channel_history
        (fun n _ => if n = 0 then some ⟨true, [{}], "c"⟩ else none) 10 3).1
      = pagesConcat
          (fun n => ((fun _ => (⟨true, [{}], "c"⟩ : HistData)) n).messages)
          0 1
    ∧ (search_messages
        (fun n _ => if n = 0 then some ⟨true, [{}], 5⟩ else none) 10 3).1
      = pagesConcat
          (fun n => ((fun _ => (⟨true, [{}], 5⟩ : SearchData)) n).matchesL)
          0 1 :=
  spec_C2 (fun n => if n = 0 then some ⟨true, [{}], "c"⟩ else none)
    (fun _ => ⟨true, [{}], "c"⟩)
    (fun n => if n = 0 then some ⟨true, [{}], 5⟩ else none)
    (fun _ => ⟨true, [{}], 5⟩)
    10 3 1 1 (by decide) (by decide)
    (by decide) (Or.inl (by decide)) (by decide)
    (by decide) (Or.inl (by decide)) (by decide)

-- Projection shape (claims C5 and C10).

/-- C5: projection emits, in compact mode, the line
`"[ts] @handle: text"` with the thread suffix `" [thread:thread_ts]"`
appended exactly when `thread_ts` is present and differs from `ts`, and in
structured mode the record `{text, user: handle, ts}` with a `thread_ts`
field exactly when present; concretely, for
`{text: "hi <@U1>", user: "U2", ts: "100.1"}` with the cache mapping
`U1 → "alice"` and `U2 → "bob"`, compact mode yields
`"[100.1] @bob: hi @alice"` and structured mode yields
`{text: "hi @alice", user: "bob", ts: "100.1"}`. -/
theorem spec_C5 (fetch : String → Option UserData) (c : Cache)
    (m : RawMessage) :
    ((filter_message_fields "compact" fetch c m).out
      = .compact ("[" ++ m.ts ++ "] @" ++ (authorRes fetch c m).handle
          ++ ": "
          ++ (replace_user_mentions fetch (authorRes fetch c m).cache
              m.text).text
          ++ (if m.thread_ts ≠ "" ∧ m.thread_ts ≠ m.ts
              then " [thread:" ++ m.thread_ts ++ "]" else "")))
    ∧ ((filter_message_fields "json" fetch c m).out
      = .structured
          (replace_user_mentions fetch (authorRes fetch c m).cache
            m.text).text
          (authorRes fetch c m).handle m.ts
          (if m.thread_ts = "" then none else some m.thread_ts))
    ∧ (filter_message_fields "compact" (fun _ => none)
        [("U1", "alice"), ("U2", "bob")]
        ⟨"hi <@U1>", "U2", "100.1", ""⟩).out
      = .compact "[100.1] @bob: hi @alice"
    ∧ (filter_message_fields "json" (fun _ => none)
        [("U1", "alice"), ("U2", "bob")]
        ⟨"hi <@U1>", "U2", "100.1", ""⟩).out
      = .structured "hi @alice" "bob" "100.1" none := by
  refine ⟨?_, ?_, by decide, by decide⟩
  · simp only [filter_message_fields]
    rw [if_neg (show ¬("compact" : String) = "json" by decide)]
  · simp [filter_message_fields]

/-- C10: the projector emits the structured (JSON) record exactly when the
lowercased output-format configuration is `"json"`; every other value —
including `"structured"` and `"compact"` — yields the compact line. -/
theorem spec_C10 (env : Option String) (fetch : String → Option UserData)
    (c : Cache) (m : RawMessage) :
    (isStructuredP (filter_message_fields (OUTPUT_FORMAT env) fetch c m).out
        = true ↔ OUTPUT_FORMAT env = "json")
    ∧ (isCompactP (filter_message_fields (OUTPUT_FORMAT env) fetch c m).out
        = true ↔ OUTPUT_FORMAT env ≠ "json")
    ∧ isCompactP (filter_message_fields "structured" fetch c m).out = true
    ∧ isCompactP (filter_message_fields "compact" fetch c m).out = true := by
  have key : ∀ fmt : String,
      isStructuredP (filter_message_fields fmt fetch c m).out = true
        ↔ fmt = "json" := by
    intro fmt
    by_cases h : fmt = "json"
    · simp only [filter_message_fields, if_pos h]
      simp [isStructuredP, h]
    · simp only [filter_message_fields, if_neg h]
      simp [isStructuredP, h]
  have key2 : ∀ fmt : String,
      isCompactP (filter_message_fields fmt fetch c m).out = true
        ↔ fmt ≠ "json" := by
    intro fmt
    by_cases h : fmt = "json"
    · simp only [filter_message_fields, if_pos h]
      simp [isCompactP, h]
    · simp only [filter_message_fields, if_neg h]
      simp [isCompactP, h]
  exact ⟨key _, key2 _, (key2 "structured").mpr (by decide),
    (key2 "compact").mpr (by decide)⟩


-- Mention de-duplication (claim C4).

theorem mem_dedupF (x : String) :
    ∀ l seen, x ∈ dedupF seen l ↔ (x ∈ l ∧ x ∉ seen) := by
  intro l
  induction l with
  | nil => intro seen; simp [dedupF]
  | cons a l ih =>
    intro seen
    by_cases h : a ∈ seen
    · rw [dedupF, if_pos h, ih seen]
      constructor
      · rintro ⟨h1, h2⟩
        exact ⟨List.mem_cons_of_mem _ h1, h2⟩
      · rintro ⟨h1, h2⟩
        rcases List.mem_cons.mp h1 with h1 | h1
        · exact absurd (h1 ▸ h) h2
        · exact ⟨h1, h2⟩
    · rw [dedupF, if_neg h]
      constructor
      · intro h1
        rcases List.mem_cons.mp h1 with h1 | h1
        · subst h1
          exact ⟨List.mem_cons_self _ _, h⟩
        · obtain ⟨h2, h3⟩ := (ih (a :: seen)).mp h1
          exact ⟨List.mem_cons_of_mem _ h2,
            fun hx => h3 (List.mem_cons_of_mem _ hx)⟩
      · rintro ⟨h1, h2⟩
        by_cases hxa : x = a
        · exact hxa ▸ List.mem_cons_self _ _
        · have h1' : x ∈ l := by
            rcases List.mem_cons.mp h1 with h5 | h5
            · exact absurd h5 hxa
            · exact h5
          refine List.mem_cons_of_mem _
            ((ih (a :: seen)).mpr ⟨h1', fun hx => ?_⟩)
          rcases List.mem_cons.mp hx with hx | hx
          · exact hxa hx
          · exact h2 hx

theorem nodup_dedupF : ∀ (l seen : List String), (dedupF seen l).Nodup := by
  intro l
  induction l with
  | nil => intro seen; simp [dedupF]
  | cons a l ih =>
    intro seen
    by_cases h : a ∈ seen
    · simpa [dedupF, if_pos h] using ih seen
    · simp only [dedupF, if_neg h]
      refine List.nodup_cons.mpr ⟨fun hx => ?_, ih (a :: seen)⟩
      exact ((mem_dedupF a l (a :: seen)).mp hx).2 (by simp)

theorem scanMentionsAux_ne_empty :
    ∀ fuel l x, x ∈ scanMentionsAux fuel l → x ≠ "" := by
  intro fuel
  induction fuel with
  | zero => intro l x hx; simp [scanMentionsAux] at hx
  | succ fuel ih =>
    intro l x hx
    cases l with
    | nil => simp [scanMentionsAux] at hx
    | cons c rest =>
      by_cases h1 : c = '<'
      · cases rest with
        | nil =>
          simp only [scanMentionsAux, if_pos h1] at hx
          exact ih [] x hx
        | cons c2 r2 =>
          simp only [scanMentionsAux, if_pos h1] at hx
          by_cases h2 : c2 = '@'
          · rw [if_pos h2] at hx
            by_cases h3 :
                (r2.drop (r2.takeWhile isMentionChar).length).take 1 = ['>']
                  ∧ r2.takeWhile isMentionChar ≠ []
            · rw [if_pos h3] at hx
              rcases List.mem_cons.mp hx with h | h
              · subst h
                intro hbad
                exact h3.2 (congrArg String.data hbad)
              · exact ih _ x h
            · rw [if_neg h3] at hx
              exact ih _ x hx
          · rw [if_neg h2] at hx
            exact ih _ x hx
      · simp only [scanMentionsAux, if_neg h1] at hx
        exact ih _ x hx

theorem uniqueUsers_nodup (msgs : List RawMessage) :
    (uniqueUsers msgs).Nodup :=
  nodup_dedupF _ []

theorem uniqueUsers_ne_empty (msgs : List RawMessage) (u : String)
    (hu : u ∈ uniqueUsers msgs) : u ≠ "" := by
  have h1 := ((mem_dedupF u _ []).mp hu).1
  rcases List.mem_append.mp h1 with h | h
  · obtain ⟨m, _, hm⟩ := List.mem_filterMap.mp h
    by_cases he : m.user = ""
    · simp [he] at hm
    · simp [he] at hm
      subst hm
      exact he
  · obtain ⟨m, _, hm⟩ := List.mem_flatMap.mp h
    exact scanMentionsAux_ne_empty _ _ u hm

theorem author_mem_uniqueUsers (msgs : List RawMessage) (m : RawMessage)
    (hm : m ∈ msgs) (hu : m.user ≠ "") : m.user ∈ uniqueUsers msgs := by
  refine (mem_dedupF _ _ []).mpr ⟨List.mem_append.mpr (Or.inl ?_), by simp⟩
  exact List.mem_filterMap.mpr ⟨m, hm, by simp [hu]⟩

theorem mention_mem_uniqueUsers (msgs : List RawMessage) (m : RawMessage)
    (u : String) (hm : m ∈ msgs) (hu : u ∈ scanMentions m.text) :
    u ∈ uniqueUsers msgs := by
  refine (mem_dedupF _ _ []).mpr ⟨List.mem_append.mpr (Or.inr ?_), by simp⟩
  exact List.mem_flatMap.mpr ⟨m, hm, hu⟩

theorem guh_cache_miss (fetch : String → Option UserData) (c : Cache)
    (u : String) (hu : u ≠ "") (hl : List.lookup u c = none) :
    (get_user_handle fetch c u).cache
      = cacheInsert c u (get_user_handle fetch c u).handle := by
  unfold get_user_handle
  cases hf : fetch u with
  | none => simp [hu, hl, hf]
  | some d =>
    by_cases hok : d.ok
    · simp [hu, hl, hf, hok]
    · simp [hu, hl, hf, hok]

theorem filterCongrOn (p q : String → Bool) :
    ∀ l : List String, (∀ x ∈ l, p x = q x) → l.filter p = l.filter q := by
  intro l
  induction l with
  | nil => intro _; rfl
  | cons a l ih =>
    intro h
    have ha := h a (List.mem_cons_self _ _)
    have hrest := ih (fun x hx => h x (List.mem_cons_of_mem _ hx))
    by_cases hp : p a = true
    · rw [List.filter_cons_of_pos hp, List.filter_cons_of_pos (ha ▸ hp),
        hrest]
    · have hq : ¬q a = true := fun hq => hp (ha ▸ hq)
      rw [List.filter_cons_of_neg hp, List.filter_cons_of_neg hq, hrest]

theorem prefetch_fetchedIds (fetch : String → Option UserData) :
    ∀ (ids : List String) (c : Cache), ids.Nodup → (∀ u ∈ ids, u ≠ "") →
      (prefetchUsers fetch c ids).2
        = ids.filter (fun u => (List.lookup u c).isNone) := by
  intro ids
  induction ids with
  | nil => intro c _ _; simp [prefetchUsers]
  | cons u rest ih =>
    intro c hnd hne
    have hu : u ≠ "" := hne u (List.mem_cons_self _ _)
    obtain ⟨hu_notin, hndrest⟩ := List.nodup_cons.mp hnd
    have hrest := ih (get_user_handle fetch c u).cache hndrest
      (fun x hx => hne x (List.mem_cons_of_mem _ hx))
    cases hl : List.lookup u c with
    | some v =>
      have hr : get_user_handle fetch c u = ⟨v, c, false⟩ :=
        guh_hit fetch c u v hu hl
      have ihc := ih c hndrest (fun x hx => hne x (List.mem_cons_of_mem _ hx))
      rw [List.filter_cons]
      simp [prefetchUsers, hr, hl, ihc]
    | none =>
      have hfe : (get_user_handle fetch c u).fetched = true :=
        (guh_fetched_iff fetch c u).mpr ⟨hu, hl⟩
      have hsame :
          rest.filter
              (fun x =>
                (List.lookup x (get_user_handle fetch c u).cache).isNone)
            = rest.filter (fun x => (List.lookup x c).isNone) := by
        refine filterCongrOn _ _ rest (fun x hx => ?_)
        have hxu : x ≠ u := fun h => hu_notin (h ▸ hx)
        rw [guh_cache_miss fetch c u hu hl,
          cacheInsert_lookup_other c u _ x hxu]
      rw [List.filter_cons]
      simp [prefetchUsers, hfe, hl, hrest, hsame]

theorem prefetch_cache_mono (fetch : String → Option UserData) :
    ∀ (ids : List String) (c : Cache) (x v : String),
      List.lookup x c = some v →
      List.lookup x (prefetchUsers fetch c ids).1 = some v := by
  intro ids
  induction ids with
  | nil => intro c x v hv; simpa [prefetchUsers] using hv
  | cons u rest ih =>
    intro c x v hv
    simp only [prefetchUsers]
    exact ih _ x v (guh_cache_mono fetch c u x v hv)

theorem prefetch_cache_mem (fetch : String → Option UserData) :
    ∀ (ids : List String) (c : Cache) (u : String),
      u ∈ ids → u ≠ "" →
      (List.lookup u (prefetchUsers fetch c ids).1).isSome = true := by
  intro ids
  induction ids with
  | nil => intro c u hu _; simp at hu
  | cons a rest ih =>
    intro c u hu hne
    rcases List.mem_cons.mp hu with h | h
    · subst h
      simp only [prefetchUsers]
      have h1 := guh_self_cached fetch c u hne
      have h2 := prefetch_cache_mono fetch rest
        (get_user_handle fetch c u).cache u _ h1
      simp [h2]
    · simp only [prefetchUsers]
      exact ih _ u h hne

theorem resolveIds_nofetch (fetch : String → Option UserData) :
    ∀ (ids : List String) (c : Cache),
      (∀ u ∈ ids, u ≠ "" ∧ (List.lookup u c).isSome = true) →
      (resolveIds fetch c ids).2.1 = c
        ∧ (resolveIds fetch c ids).2.2 = [] := by
  intro ids
  induction ids with
  | nil => intro c _; simp [resolveIds]
  | cons u rest ih =>
    intro c h
    obtain ⟨hu, hsome⟩ := h u (List.mem_cons_self _ _)
    obtain ⟨v, hv⟩ := Option.isSome_iff_exists.mp hsome
    have hr : get_user_handle fetch c u = ⟨v, c, false⟩ :=
      guh_hit fetch c u v hu hv
    have ihr := ih c (fun x hx => h x (List.mem_cons_of_mem _ hx))
    constructor <;> simp [resolveIds, hr, ihr.1, ihr.2]

theorem rum_nofetch (fetch : String → Option UserData) (c : Cache)
    (text : String)
    (h : ∀ u ∈ scanMentions text, (List.lookup u c).isSome = true) :
    (replace_user_mentions fetch c text).cache = c
      ∧ (replace_user_mentions fetch c text).fetchedIds = [] := by
  by_cases ht : text = ""
  · simp [replace_user_mentions, ht]
  · have hall : ∀ u ∈ dedupF [] (scanMentions text),
        u ≠ "" ∧ (List.lookup u c).isSome = true := by
      intro u hu
      have hmem := ((mem_dedupF u _ []).mp hu).1
      exact ⟨scanMentionsAux_ne_empty _ _ u hmem, h u hmem⟩
    have hres := resolveIds_nofetch fetch (dedupF [] (scanMentions text)) c
      hall
    constructor <;> simp [replace_user_mentions, ht, hres.1, hres.2]

theorem fmf_nofetch (fmt : String) (fetch : String → Option UserData)
    (c : Cache) (m : RawMessage)
    (hauthor : m.user ≠ "" → (List.lookup m.user c).isSome = true)
    (hment : ∀ u ∈ scanMentions m.text, (List.lookup u c).isSome = true) :
    (filter_message_fields fmt fetch c m).cache = c
      ∧ (filter_message_fields fmt fetch c m).fetchedIds = [] := by
  have ha_cache : (authorRes fetch c m).cache = c := by
    unfold authorRes
    by_cases hu : m.user = ""
    · simp [hu]
    · obtain ⟨v, hv⟩ := Option.isSome_iff_exists.mp (hauthor hu)
      simp [hu, guh_hit fetch c m.user v hu hv]
  have ha_fetched : (authorRes fetch c m).fetched = false := by
    unfold authorRes
    by_cases hu : m.user = ""
    · simp [hu]
    · obtain ⟨v, hv⟩ := Option.isSome_iff_exists.mp (hauthor hu)
      simp [hu, guh_hit fetch c m.user v hu hv]
  have hrum := rum_nofetch fetch c m.text hment
  constructor
  · by_cases hf : fmt = "json" <;>
      simp [filter_message_fields, hf, ha_cache, hrum.1]
  · by_cases hf : fmt = "json" <;>
      simp [filter_message_fields, hf, ha_cache, ha_fetched, hrum.2]

theorem projectAll_nofetch (fmt : String) (fetch : String → Option UserData) :
    ∀ (msgs : List RawMessage) (c : Cache),
      (∀ m ∈ msgs, (m.user ≠ "" → (List.lookup m.user c).isSome = true)
        ∧ (∀ u ∈ scanMentions m.text, (List.lookup u c).isSome = true)) →
      (projectAll fmt fetch c msgs).2.1 = c
        ∧ (projectAll fmt fetch c msgs).2.2 = [] := by
  intro msgs
  induction msgs with
  | nil => intro c _; simp [projectAll]
  | cons m rest ih =>
    intro c h
    obtain ⟨h1, h2⟩ := h m (List.mem_cons_self _ _)
    have hm := fmf_nofetch fmt fetch c m h1 h2
    have ihr := ih c (fun x hx => h x (List.mem_cons_of_mem _ hx))
    constructor <;> simp [projectAll, hm.1, hm.2, ihr.1, ihr.2]

/-- C4: the batch projection of `get_channel_history` / `search_messages`:
the collected unique-user list has no duplicates; the pre-fetch phase
issues a remote fetch exactly for the unique IDs not already cached (so
each unique ID referenced in the batch — as author or inline mention —
triggers at most one fetch over the whole projection); the projection
phase afterwards issues none; and when no referenced ID is cached, the
number of resolution attempts equals the number of unique IDs. -/
theorem spec_C4 (msgs : List RawMessage) (fetch : String → Option UserData)
    (c0 : Cache) (fmt : String) :
    (uniqueUsers msgs).Nodup
    ∧ (prefetchUsers fetch c0 (uniqueUsers msgs)).2
        = (uniqueUsers msgs).filter (fun u => (List.lookup u c0).isNone)
    ∧ (projectAll fmt fetch (prefetchUsers fetch c0 (uniqueUsers msgs)).1
        msgs).2.2 = []
    ∧ ((∀ u ∈ uniqueUsers msgs, List.lookup u c0 = none) →
        (prefetchUsers fetch c0 (uniqueUsers msgs)).2.length
          = (uniqueUsers msgs).length) := by
  have hnd := uniqueUsers_nodup msgs
  have hne := uniqueUsers_ne_empty msgs
  have hfil := prefetch_fetchedIds fetch (uniqueUsers msgs) c0 hnd hne
  refine ⟨hnd, hfil, ?_, ?_⟩
  · refine (projectAll_nofetch fmt fetch msgs _ fun m hm => ⟨?_, ?_⟩).2
    · intro hu
      exact prefetch_cache_mem fetch (uniqueUsers msgs) c0 m.user
        (author_mem_uniqueUsers msgs m hm hu) hu
    · intro u hu
      exact prefetch_cache_mem fetch (uniqueUsers msgs) c0 u
        (mention_mem_uniqueUsers msgs m u hm hu)
        (scanMentionsAux_ne_empty _ _ u hu)
  · intro hnone
    rw [hfil, List.filter_eq_self.mpr (fun x hx => by rw [hnone x hx]; rfl)]

/-- Witness for C4 at a concrete input: one message with author `U2` and
inline mention `U1`, empty initial cache, failing collaborator.  The
closing conjunct instantiates the exactly-M part (M = 2). -/
theorem spec_C4_witness :
    ((uniqueUsers [{ text := "hi <@U1>", user := "U2", ts := "1" }]).Nodup
      ∧ (prefetchUsers (fun _ => none) []
          (uniqueUsers [{ text := "hi <@U1>", user := "U2", ts := "1" }])).2
        = (uniqueUsers
            [{ text := "hi <@U1>", user := "U2", ts := "1" }]).filter
            (fun u => (List.lookup u ([] : Cache)).isNone)
      ∧ (projectAll "compact" (fun _ => none)
          (prefetchUsers (fun _ => none) []
            (uniqueUsers [{ text := "hi <@U1>", user := "U2", ts := "1" }])).1
          [{ text := "hi <@U1>", user := "U2", ts := "1" }]).2.2 = []
      ∧ ((∀ u ∈ uniqueUsers [{ text := "hi <@U1>", user := "U2", ts := "1" }],
            List.lookup u ([] : Cache) = none) →
          (prefetchUsers (fun _ => none) []
            (uniqueUsers
              [{ text := "hi <@U1>", user := "U2", ts := "1" }])).2.length
            = (uniqueUsers
                [{ text := "hi <@U1>", user := "U2", ts := "1" }]).length))
    ∧ (prefetchUsers (fun _ => none) []
        (uniqueUsers [{ text := "hi <@U1>", user := "U2", ts := "1" }])).2.length
        = (uniqueUsers [{ text := "hi <@U1>", user := "U2", ts := "1" }]).length :=
  ⟨spec_C4 [{ text := "hi <@U1>", user := "U2", ts := "1" }] (fun _ => none)
      [] "compact",
    (spec_C4 [{ text := "hi <@U1>", user := "U2", ts := "1" }] (fun _ => none)
      [] "compact").2.2.2 (by decide)⟩

-- Timestamp normalization (claims C6 and C7).

/-- C6: the timestamp normalizer maps empty input to empty output;
`"2024-01-15"` to the microsecond timestamp for
`2024-01-15T00:00:00.000000Z` (start of day) or, with the end-of-range
flag, for `2024-01-15T23:59:59.999999Z`; an input already in Unix-seconds
form is returned unchanged; and an unparseable input yields empty. -/
theorem spec_C6 :
    parse_timestamp "" false = ""
    ∧ parse_timestamp "" true = ""
    ∧ parse_timestamp "2024-01-15" false = "1705276800.000000"
    ∧ parse_timestamp "2024-01-15" false
        = formatTs6 (tsMicros 2024 1 15 0 0 0 0 0)
    ∧ parse_timestamp "2024-01-15" true = "1705363199.999999"
    ∧ parse_timestamp "2024-01-15" true
        = formatTs6 (tsMicros 2024 1 15 23 59 59 999999 0)
    ∧ parse_timestamp "1705000000.123456" false = "1705000000.123456"
    ∧ parse_timestamp "not-a-date" false = "" :=
  ⟨rfl, rfl, by decide, by decide, by decide, by decide, by decide,
    by decide⟩

theorem digitChar_isDigit (d : Nat) : (digitChar d).isDigit = true := by
  unfold digitChar
  have h : d % 10 < 10 := Nat.mod_lt _ (by norm_num)
  interval_cases h2 : d % 10 <;> decide

theorem isDigit_ne_dot (c : Char) (h : c.isDigit = true) : c ≠ '.' := by
  intro he
  subst he
  exact absurd h (by decide)

theorem natToDigitsAux_digits :
    ∀ fuel n acc, (∀ c ∈ acc, c.isDigit = true) →
      natToDigitsAux fuel n acc ≠ []
        ∧ ∀ c ∈ natToDigitsAux fuel n acc, c.isDigit = true := by
  intro fuel
  induction fuel with
  | zero =>
    intro n acc hacc
    refine ⟨by simp [natToDigitsAux], ?_⟩
    intro c hc
    rcases List.mem_cons.mp hc with h | h
    · exact h ▸ digitChar_isDigit n
    · exact hacc c h
  | succ fuel ih =>
    intro n acc hacc
    by_cases hn : n < 10
    · refine ⟨by simp [natToDigitsAux, hn], ?_⟩
      intro c hc
      simp only [natToDigitsAux, if_pos hn] at hc
      rcases List.mem_cons.mp hc with h | h
      · exact h ▸ digitChar_isDigit n
      · exact hacc c h
    · have hacc2 : ∀ c ∈ digitChar n :: acc, c.isDigit = true := by
        intro c hc
        rcases List.mem_cons.mp hc with h | h
        · exact h ▸ digitChar_isDigit n
        · exact hacc c h
      have := ih (n / 10) (digitChar n :: acc) hacc2
      simpa [natToDigitsAux, hn] using this

theorem sixFracAux_append (pre post : List Char)
    (hpre : ∀ c ∈ pre, c ≠ '.') :
    sixFracAux (pre ++ '.' :: post)
      = (post.length == 6 && post.all Char.isDigit) := by
  induction pre with
  | nil => simp [sixFracAux]
  | cons c rest ih =>
    have hc : c ≠ '.' := hpre c (List.mem_cons_self _ _)
    simp only [List.cons_append, sixFracAux, if_neg hc]
    exact ih (fun x hx => hpre x (List.mem_cons_of_mem _ hx))

theorem sixFrac_formatTs6 (t : Int) : sixFrac (formatTs6 t) = true := by
  show sixFracAux ((if t < 0 then ['-'] else [])
    ++ natToDigits (t.natAbs / 1000000)
    ++ '.' :: pad6 (t.natAbs % 1000000)) = true
  have hdig := natToDigitsAux_digits (t.natAbs / 1000000 + 1)
    (t.natAbs / 1000000) [] (by simp)
  rw [sixFracAux_append]
  · simp [pad6, digitChar_isDigit]
  · intro c hc
    rcases List.mem_append.mp hc with h | h
    · by_cases ht : t < 0
      · simp [ht] at h
        simp [h]
      · simp [ht] at h
    · exact isDigit_ne_dot c (hdig.2 c h)

/-- C7 counterexample: the claim "every non-empty normalizer result has
exactly six fractional digits" fails on the Unix-timestamp passthrough:
input `"123"` yields the non-empty result `"123"`, which has no
fractional digits. -/
theorem spec_C7_cex :
    parse_timestamp "123" false = "123"
      ∧ parse_timestamp "123" false ≠ ""
      ∧ sixFrac (parse_timestamp "123" false) = false :=
  ⟨by decide, by decide, by decide⟩

/-- C7 (amended): for every input NOT matching the Unix-timestamp
passthrough pattern, a non-empty normalizer result is a decimal string
with exactly six fractional digits. -/
theorem spec_C7 (s : String) (e : Bool) (hunix : isUnixTs s = false)
    (hne : parse_timestamp s e ≠ "") :
    sixFrac (parse_timestamp s e) = true := by
  unfold parse_timestamp at *
  by_cases hs : s = ""
  · simp [hs] at hne
  · simp only [if_neg hs, hunix, Bool.false_eq_true, if_false] at hne ⊢
    by_cases hdo : isDateOnlyStr s = true
    · rw [if_pos hdo] at hne ⊢
      cases hdt : fromisoformatSub s with
      | none => simp [hdt] at hne
      | some dt => cases e <;> simp [hdt, sixFrac_formatTs6]
    · rw [if_neg hdo] at hne ⊢
      cases hdt : fromisoformatSub (strReplace s "Z" "+00:00") with
      | none => simp [hdt] at hne
      | some dt => simp [hdt, sixFrac_formatTs6]

/-- Witness for the amended C7 at the concrete input `"2024-01-15"`. -/
theorem spec_C7_witness :
    isUnixTs "2024-01-15" = false
    ∧ parse_timestamp "2024-01-15" false ≠ ""
    ∧ sixFrac (parse_timestamp "2024-01-15" false) = true :=
  ⟨by decide, by decide, spec_C7 "2024-01-15" false (by decide) (by decide)⟩

-- Channel-cache reload failure (claim C8) and key invariants (claim C9).

/-- C8: when a channel-cache reload fails (no response or `ok:false`) —
whether invoked directly, through `refresh_channel_cache`, or through the
miss path of `get_channel_id_by_name` — the channel cache afterwards
equals the cache before, and the reload reports failure. -/
theorem spec_C8 (resp : Option ChannelsData) (cc : Cache) (name : String)
    (hfail : resp = none ∨ ∃ d, resp = some d ∧ d.ok = false) :
    (_load_channels_to_cache resp cc).2 = cc
    ∧ (_load_channels_to_cache resp cc).1 = false
    ∧ (refresh_channel_cache resp cc).2 = cc
    ∧ (get_channel_id_by_name resp cc name).2 = cc := by
  have h1 : _load_channels_to_cache resp cc = (false, cc) := by
    rcases hfail with h | ⟨d, hd, hok⟩
    · simp [_load_channels_to_cache, h]
    · simp [_load_channels_to_cache, hd, hok]
  refine ⟨by simp [h1], by simp [h1],
    by simp [refresh_channel_cache, h1], ?_⟩
  unfold get_channel_id_by_name
  cases hl : List.lookup (stripHash name) cc with
  | some cid => simp [hl]
  | none => simp [hl, h1]

/-- Witness for C8 at a concrete input: no response, a one-entry cache. -/
theorem spec_C8_witness :
    (_load_channels_to_cache none [("general", "C1")]).2
        = [("general", "C1")]
    ∧ (_load_channels_to_cache none [("general", "C1")]).1 = false
    ∧ (refresh_channel_cache none [("general", "C1")]).2
        = [("general", "C1")]
    ∧ (get_channel_id_by_name none [("general", "C1")] "random").2
        = [("general", "C1")] :=
  spec_C8 none [("general", "C1")] "random" (Or.inl rfl)

theorem loadChannels_good (resp : Option ChannelsData) (cc : Cache)
    (h : goodChannelCache cc) :
    goodChannelCache (_load_channels_to_cache resp cc).2 := by
  have hfold : ∀ (l : List ChannelInfo) (acc : Cache),
      goodChannelCache acc →
      goodChannelCache
        (l.foldl
          (fun acc ch =>
            if ch.name ≠ "" ∧ ch.id ≠ "" then cacheInsert acc ch.name ch.id
            else acc)
          acc) := by
    intro l
    induction l with
    | nil => intro acc hacc; exact hacc
    | cons ch rest ih =>
      intro acc hacc
      simp only [List.foldl_cons]
      by_cases hc : ch.name ≠ "" ∧ ch.id ≠ ""
      · refine ih _ (fun p hp => ?_)
        rw [if_pos hc] at hp
        rcases cacheInsert_mem acc ch.name ch.id p hp with h1 | h1
        · exact h1 ▸ hc
        · exact hacc p h1
      · rw [if_neg hc]
        exact ih _ hacc
  cases resp with
  | none => exact h
  | some d =>
    by_cases hok : d.ok
    · simpa [_load_channels_to_cache, hok] using
        hfold d.channels [] (by simp [goodChannelCache])
    · simpa [_load_channels_to_cache, hok] using h

theorem guh_good (fetch : String → Option UserData) (c : Cache)
    (u : String) (h : goodUserCache c) :
    goodUserCache (get_user_handle fetch c u).cache := by
  by_cases hu : u = ""
  · unfold get_user_handle
    simpa [hu] using h
  · cases hl : List.lookup u c with
    | some v => simpa [guh_hit fetch c u v hu hl] using h
    | none =>
      rw [guh_cache_miss fetch c u hu hl]
      intro p hp
      rcases cacheInsert_mem c u _ p hp with h1 | h1
      · rw [h1]
        exact hu
      · exact h p h1

theorem resolveChannel_cache_cases (resp : Option ChannelsData) (cc : Cache)
    (name : String) :
    (get_channel_id_by_name resp cc name).2 = cc
      ∨ (get_channel_id_by_name resp cc name).2
        = (_load_channels_to_cache resp cc).2 := by
  unfold get_channel_id_by_name
  cases hl : List.lookup (stripHash name) cc with
  | some cid => simp [hl]
  | none =>
    simp only [hl]
    by_cases hr : (_load_channels_to_cache resp cc).1 = true
    · rw [if_pos hr]
      cases h2 : List.lookup (stripHash name)
          (_load_channels_to_cache resp cc).2 with
      | some cid => simp [h2]
      | none => simp [h2]
    · rw [if_neg hr]
      simp

theorem step_good (s : SysState) (op : Op) (h : goodState s) :
    goodState (step s op) := by
  obtain ⟨hcc, huc, hdisk⟩ := h
  cases op with
  | loadChannels resp =>
    exact ⟨loadChannels_good resp s.channelCache hcc, huc, hdisk⟩
  | resolveChannel resp name =>
    refine ⟨?_, huc, hdisk⟩
    rcases resolveChannel_cache_cases resp s.channelCache name with h1 | h1
    · rw [step, h1]
      exact hcc
    · rw [step, h1]
      exact loadChannels_good resp s.channelCache hcc
  | refreshChannels resp =>
    exact ⟨loadChannels_good resp s.channelCache hcc, huc, hdisk⟩
  | lookupUser fetch uid saveOk =>
    have hg := guh_good fetch s.userCache uid huc
    refine ⟨hcc, hg, ?_⟩
    intro dc hdc
    simp only [step] at hdc
    by_cases hcond :
        (get_user_handle fetch s.userCache uid).fetched = true ∧ saveOk = true
    · rw [if_pos hcond] at hdc
      cases hdc
      exact hg
    · rw [if_neg hcond] at hdc
      exact hdisk dc hdc
  | clearUserCache unlinkOk =>
    refine ⟨hcc, by simp [goodUserCache, step], ?_⟩
    intro dc hdc
    simp only [step] at hdc
    by_cases hok : unlinkOk = true
    · simp [hok] at hdc
    · rw [if_neg (by simpa using hok)] at hdc
      exact hdisk dc hdc
  | loadUserCacheStartup parseOk =>
    refine ⟨hcc, ?_, hdisk⟩
    simp only [step, _load_user_cache]
    cases hd : s.diskUserCache with
    | none => exact huc
    | some dc =>
      by_cases hp : parseOk = true
      · simpa [hp] using hdisk dc hd
      · simp [hp, goodUserCache]

/-- C9: in every state reachable from process start by channel reloads
and lookups, user lookups, user-cache clears, and startup loads of the
persisted user cache, every channel-cache entry has a non-empty name and
a non-empty ID, and every user-cache key is non-empty. -/
theorem spec_C9 (ops : List Op) :
    (∀ p ∈ (runOps ops).channelCache, p.1 ≠ "" ∧ p.2 ≠ "")
    ∧ ∀ p ∈ (runOps ops).userCache, p.1 ≠ "" := by
  have hrun : ∀ (l : List Op) (s : SysState), goodState s →
      goodState (l.foldl step s) := by
    intro l
    induction l with
    | nil => intro s hs; exact hs
    | cons op rest ih =>
      intro s hs
      exact ih _ (step_good s op hs)
  have h := hrun ops initState
    ⟨by simp [goodChannelCache, initState], by simp [goodUserCache, initState],
      by simp [initState]⟩
  exact ⟨h.1, h.2.1⟩
